import Mathlib

/-!
Verification of the NMEA 0183 fixed-position broadcaster (src/code.py).

Shallow embedding notes:
* Python `float` values are modelled as exact rationals (`ℚ`).  Python's
  fixed-point formatting `%.4f` rounds half-to-even on the exact value; we
  implement that rule directly on rationals (for actual binary doubles a
  decimal tie at the 4th fractional digit is impossible, so half-even agrees
  with the double behaviour at every representable input).
* Python strings are Lean `String`s; `ord` is `Char.toNat`.
* `int(...)` applied to a string slice raises `ValueError` on malformed
  input; this is modelled by an `Option` result (`none` = exception).
-/

namespace Nmea

/-- The decimal digit character for `n < 10` (Python's rendering of a digit). -/
def digitChar (n : ℕ) : Char := Char.ofNat (48 + n)

/-- Fuel-indexed digit extraction (structural recursion so that concrete
instances evaluate in the kernel); `fuel = n + 1` always suffices. -/
def decDigitsAux : ℕ → ℕ → List Char
  | 0, _ => []
  | fuel + 1, n =>
    if n < 10 then [digitChar n] else digitChar (n % 10) :: decDigitsAux fuel (n / 10)

/-- Decimal digits of a natural number, least-significant first. -/
def natDecRev (n : ℕ) : List Char := decDigitsAux (n + 1) n

/-- Decimal rendering of a natural number, as Python renders a nonnegative int. -/
def natDec (n : ℕ) : List Char := (natDecRev n).reverse

/-- Left-pad a character list with `c` to width `w` (Python `%0wd` padding). -/
def padLeft (w : ℕ) (c : Char) (l : List Char) : List Char :=
  List.replicate (w - l.length) c ++ l

/-- Python `f"{n:02d}"` for a natural number. -/
def pyFmt2 (n : ℕ) : List Char := padLeft 2 '0' (natDec n)

/-- Python `f"{n:03d}"` for a natural number. -/
def pyFmt3 (n : ℕ) : List Char := padLeft 3 '0' (natDec n)

/-- Round a rational to the nearest integer, ties to even
(Python's rounding rule for float formatting). -/
def roundHalfEven (q : ℚ) : ℤ :=
  let f : ℤ := ⌊q⌋
  let r : ℚ := q - f
  if r < 1/2 then f
  else if 1/2 < r then f + 1
  else if f % 2 = 0 then f else f + 1

/-- Python `f"{q:07.4f}"` for a non-negative value `q`: round to four decimal
places (half-to-even), render with exactly four fractional digits, left-pad
with zeros to a total width of seven characters. -/
def pyFmt74 (q : ℚ) : List Char :=
  let m : ℕ := (roundHalfEven (q * 10000)).toNat
  padLeft 7 '0' (natDec (m / 10000) ++ '.' :: padLeft 4 '0' (natDec (m % 10000)))

/-- Embedding of `_to_nmea_latlon` (src/code.py lines 41–51): convert decimal
degrees to NMEA `ddmm.mmmm` / `dddmm.mmmm` text plus hemisphere. -/
def toNmeaLatlon (value : ℚ) (is_lat : Bool) : String × String :=
  let hemi : String :=
    if value < 0 then (if is_lat then "S" else "W")
    else (if is_lat then "N" else "E")
  let abs_val : ℚ := |value|
  let degrees : ℕ := (⌊abs_val⌋).toNat
  let minutes : ℚ := (abs_val - (degrees : ℚ)) * 60
  if is_lat then (⟨pyFmt2 degrees ++ pyFmt74 minutes⟩, hemi)
  else (⟨pyFmt3 degrees ++ pyFmt74 minutes⟩, hemi)

/-- Uppercase hexadecimal digit character for `n < 16`. -/
def hexDigitChar (n : ℕ) : Char :=
  if n < 10 then Char.ofNat (48 + n) else Char.ofNat (55 + n)

/-- Fuel-indexed hexadecimal digit extraction (structural recursion so that
concrete instances evaluate in the kernel); `fuel = n + 1` always suffices. -/
def hexDigitsAux : ℕ → ℕ → List Char
  | 0, _ => []
  | fuel + 1, n =>
    if n < 16 then [hexDigitChar n] else hexDigitChar (n % 16) :: hexDigitsAux fuel (n / 16)

/-- Uppercase hexadecimal digits of a natural number, least-significant first. -/
def hexRev (n : ℕ) : List Char := hexDigitsAux (n + 1) n

/-- Python `f"{n:02X}"`: uppercase hexadecimal, left-padded with zeros to a
width of at least two characters. -/
def pyFmt02X (n : ℕ) : List Char := padLeft 2 '0' (hexRev n).reverse

/-- Running XOR of the code points of a character list (the loop body of
`_checksum`: `csum ^= ord(ch)` starting from 0). -/
def xorBytes (l : List Char) : ℕ := l.foldl (fun a c => a ^^^ c.toNat) 0

/-- Embedding of `_checksum` (src/code.py lines 54–58). -/
def checksum (payload : String) : String := ⟨pyFmt02X (xorBytes payload.data)⟩

/-- The GGA payload string assembled by `_make_gpgga` (the f-string at
src/code.py lines 65–68). -/
def gpggaPayload (utc_hhmmss : String) (lat lon : ℚ) : String :=
  let p1 := toNmeaLatlon lat true
  let p2 := toNmeaLatlon lon false
  "GPGGA," ++ utc_hhmmss ++ ".00," ++ p1.1 ++ "," ++ p1.2 ++ "," ++
    p2.1 ++ "," ++ p2.2 ++ ",1,08,1.0,0.0,M,0.0,M,,"

/-- Embedding of `_make_gpgga` (src/code.py lines 61–69). -/
def makeGpgga (utc_hhmmss : String) (lat lon : ℚ) : String :=
  "$" ++ gpggaPayload utc_hhmmss lat lon ++ "*" ++
    checksum (gpggaPayload utc_hhmmss lat lon) ++ "\r\n"

/-- The RMC payload string assembled by `_make_gprmc` (the f-string at
src/code.py lines 76–80). -/
def gprmcPayload (utc_hhmmss date_ddmmyy : String) (lat lon : ℚ) : String :=
  let p1 := toNmeaLatlon lat true
  let p2 := toNmeaLatlon lon false
  "GPRMC," ++ utc_hhmmss ++ ".00,A," ++ p1.1 ++ "," ++ p1.2 ++ "," ++
    p2.1 ++ "," ++ p2.2 ++ ",0.0,0.0," ++ date_ddmmyy ++ ",,,A"

/-- Embedding of `_make_gprmc` (src/code.py lines 72–81). -/
def makeGprmc (utc_hhmmss date_ddmmyy : String) (lat lon : ℚ) : String :=
  "$" ++ gprmcPayload utc_hhmmss date_ddmmyy lat lon ++ "*" ++
    checksum (gprmcPayload utc_hhmmss date_ddmmyy lat lon) ++ "\r\n"

/-- Numeric value of a decimal digit character; `none` for a non-digit. -/
def digitVal? (c : Char) : Option ℕ :=
  if c.isDigit then some (c.toNat - 48) else none

/-- Python `int(s)` on a string of decimal digits: `none` (= `ValueError`) on
an empty slice or any non-digit character. -/
def parseDigits (l : List Char) : Option ℕ :=
  match l with
  | [] => none
  | _ => l.foldlM (fun acc c => (digitVal? c).map (fun d => 10 * acc + d)) 0

/-- Python `int(x)` on a float: truncation toward zero. -/
def truncQ (q : ℚ) : ℤ := if 0 ≤ q then ⌊q⌋ else ⌈q⌉

/-- Render hours/minutes/seconds as Python's
`f"{hh:02d}{mm:02d}{ss:02d}"`. -/
def fmtTime (hh mm ss : ℕ) : String := ⟨pyFmt2 hh ++ pyFmt2 mm ++ pyFmt2 ss⟩

/-- Embedding of `_tick_time` (src/code.py lines 84–93): slice the start
string into `[0:2]`, `[2:4]`, `[4:6]`, parse each as an int, add the truncated
elapsed seconds, reduce mod 86400 (Python `%` on a positive modulus is
Euclidean, as is Lean's `Int` `%`), and re-render. `none` models the
`ValueError` raised by `int()` on a malformed slice. -/
def tickTime (start_hhmmss : String) (seconds_elapsed : ℚ) : Option String :=
  match parseDigits (start_hhmmss.data.take 2),
        parseDigits ((start_hhmmss.data.drop 2).take 2),
        parseDigits ((start_hhmmss.data.drop 4).take 2) with
  | some hh, some mm, some ss =>
      let total : ℤ := ((hh : ℤ) * 3600 + mm * 60 + ss + truncQ seconds_elapsed) % (24 * 3600)
      let t : ℕ := total.toNat
      some (fmtTime (t / 3600) ((t % 3600) / 60) (t % 60))
  | _, _, _ => none

/-! ### A checksum verifier: the round-trip property for produced sentences -/

/-- Value of an uppercase/lowercase hexadecimal digit character. -/
def hexVal? (c : Char) : Option ℕ :=
  if c.isDigit then some (c.toNat - 48)
  else if 'A' ≤ c ∧ c ≤ 'F' then some (c.toNat - 55)
  else if 'a' ≤ c ∧ c ≤ 'f' then some (c.toNat - 87)
  else none

/-- Receiver-side checksum verification on a character list: the sentence must
start with `$`; the XOR of the bytes strictly between the `$` and the first
`*` must equal the value of the two hexadecimal digits that follow the `*`. -/
def checksumVerifyL : List Char → Bool
  | '$' :: rest =>
    (match rest.dropWhile (fun c => c != '*') with
     | '*' :: h1 :: h2 :: _ =>
       (match hexVal? h1, hexVal? h2 with
        | some a, some b => xorBytes (rest.takeWhile (fun c => c != '*')) == 16 * a + b
        | _, _ => false)
     | _ => false)
  | _ => false

/-- Receiver-side checksum verification of a sentence string. -/
def checksumVerify (s : String) : Bool := checksumVerifyL s.data

/-- Comma-joined field list (the reading of the comma-separated payload). -/
def joinComma : List String → String
  | [] => ""
  | [s] => s
  | s :: rest => s ++ "," ++ joinComma rest

/-- A character that may legally appear in an NMEA payload: ASCII and none of
the framing characters `$`, `*`, CR, LF. -/
def GoodChar (c : Char) : Prop :=
  c.toNat < 128 ∧ c ≠ '$' ∧ c ≠ '*' ∧ c ≠ '\r' ∧ c ≠ '\n'

instance (c : Char) : Decidable (GoodChar c) := by
  unfold GoodChar
  infer_instance

/-! ### Basic lemmas about the decimal and hexadecimal renderers -/

theorem decDigitsAux_congr :
    ∀ f1 f2 n : ℕ, n < f1 → n < f2 → decDigitsAux f1 n = decDigitsAux f2 n := by
  intro f1
  induction f1 with
  | zero => intro f2 n h1 _; omega
  | succ f ih =>
    intro f2 n h1 h2
    cases f2 with
    | zero => omega
    | succ g =>
      simp only [decDigitsAux]
      by_cases hn : n < 10
      · simp [hn]
      · rw [if_neg hn, if_neg hn]
        have hdn : n / 10 < n := Nat.div_lt_self (by omega) (by omega)
        rw [ih g (n / 10) (by omega) (by omega)]

/-- The recursive unfolding of `natDecRev`. -/
theorem natDecRev_eq (n : ℕ) :
    natDecRev n = if n < 10 then [digitChar n]
      else digitChar (n % 10) :: natDecRev (n / 10) := by
  show decDigitsAux (n + 1) n = _
  by_cases hn : n < 10
  · simp [decDigitsAux, hn]
  · simp only [decDigitsAux]
    rw [if_neg hn, if_neg hn]
    have hdn : n / 10 < n := Nat.div_lt_self (by omega) (by omega)
    rw [decDigitsAux_congr n (n / 10 + 1) (n / 10) (by omega) (by omega)]
    exact rfl

theorem hexDigitsAux_congr :
    ∀ f1 f2 n : ℕ, n < f1 → n < f2 → hexDigitsAux f1 n = hexDigitsAux f2 n := by
  intro f1
  induction f1 with
  | zero => intro f2 n h1 _; omega
  | succ f ih =>
    intro f2 n h1 h2
    cases f2 with
    | zero => omega
    | succ g =>
      simp only [hexDigitsAux]
      by_cases hn : n < 16
      · simp [hn]
      · rw [if_neg hn, if_neg hn]
        have hdn : n / 16 < n := Nat.div_lt_self (by omega) (by omega)
        rw [ih g (n / 16) (by omega) (by omega)]

/-- The recursive unfolding of `hexRev`. -/
theorem hexRev_eq (n : ℕ) :
    hexRev n = if n < 16 then [hexDigitChar n]
      else hexDigitChar (n % 16) :: hexRev (n / 16) := by
  show hexDigitsAux (n + 1) n = _
  by_cases hn : n < 16
  · simp [hexDigitsAux, hn]
  · simp only [hexDigitsAux]
    rw [if_neg hn, if_neg hn]
    have hdn : n / 16 < n := Nat.div_lt_self (by omega) (by omega)
    rw [hexDigitsAux_congr n (n / 16 + 1) (n / 16) (by omega) (by omega)]
    exact rfl


theorem natDecRev_mem : ∀ n : ℕ, ∀ c ∈ natDecRev n, ∃ d, d < 10 ∧ c = digitChar d := by
  intro n
  induction n using Nat.strong_induction_on with
  | _ n ih =>
    rw [natDecRev_eq]
    split
    · next h => intro c hc; simp only [List.mem_singleton] at hc; exact ⟨n, h, hc⟩
    · next h =>
      intro c hc
      rcases List.mem_cons.mp hc with h1 | h1
      · exact ⟨n % 10, Nat.mod_lt _ (by omega), h1⟩
      · exact ih (n / 10) (Nat.div_lt_self (by omega) (by omega)) c h1

theorem natDec_mem (n : ℕ) : ∀ c ∈ natDec n, ∃ d, d < 10 ∧ c = digitChar d := by
  intro c hc
  exact natDecRev_mem n c (List.mem_reverse.mp hc)

theorem natDecRev_length_le : ∀ k n : ℕ, n < 10 ^ (k + 1) → (natDecRev n).length ≤ k + 1 := by
  intro k
  induction k with
  | zero =>
    intro n hn
    rw [natDecRev_eq, if_pos (by simpa using hn)]
    simp
  | succ k ih =>
    intro n hn
    rw [natDecRev_eq]
    split
    · simp
    · next h =>
      simp only [List.length_cons]
      have h2 : (10:ℕ) ^ (k + 2) = 10 * 10 ^ (k + 1) := by ring
      have h3 : n / 10 < 10 ^ (k + 1) := Nat.div_lt_of_lt_mul (h2 ▸ hn)
      have := ih (n / 10) h3
      omega

theorem natDec_length_le (k n : ℕ) (h : n < 10 ^ (k + 1)) : (natDec n).length ≤ k + 1 := by
  simpa [natDec] using natDecRev_length_le k n h

theorem natDec_length_pos (n : ℕ) : 1 ≤ (natDec n).length := by
  rw [natDec, List.length_reverse, natDecRev_eq]
  split <;> simp

theorem padLeft_length (w : ℕ) (c : Char) (l : List Char) :
    (padLeft w c l).length = max w l.length := by
  simp [padLeft]
  omega

theorem padLeft_mem (w : ℕ) (c : Char) (l : List Char) :
    ∀ x ∈ padLeft w c l, x = c ∨ x ∈ l := by
  intro x hx
  rcases List.mem_append.mp hx with h | h
  · exact Or.inl (List.eq_of_mem_replicate h)
  · exact Or.inr h

theorem pyFmt2_length (n : ℕ) (h : n < 100) : (pyFmt2 n).length = 2 := by
  have := natDec_length_le 1 n (by norm_num; omega)
  rw [pyFmt2, padLeft_length]
  omega

theorem pyFmt3_length (n : ℕ) (h : n < 1000) : (pyFmt3 n).length = 3 := by
  have := natDec_length_le 2 n (by norm_num; omega)
  rw [pyFmt3, padLeft_length]
  omega

theorem pyFmt2_mem (n : ℕ) : ∀ c ∈ pyFmt2 n, ∃ d, d < 10 ∧ c = digitChar d := by
  intro c hc
  rcases padLeft_mem _ _ _ c hc with h | h
  · exact ⟨0, by omega, h⟩
  · exact natDec_mem n c h

theorem pyFmt3_mem (n : ℕ) : ∀ c ∈ pyFmt3 n, ∃ d, d < 10 ∧ c = digitChar d := by
  intro c hc
  rcases padLeft_mem _ _ _ c hc with h | h
  · exact ⟨0, by omega, h⟩
  · exact natDec_mem n c h

theorem hexRev_mem : ∀ n : ℕ, ∀ c ∈ hexRev n, ∃ d, d < 16 ∧ c = hexDigitChar d := by
  intro n
  induction n using Nat.strong_induction_on with
  | _ n ih =>
    rw [hexRev_eq]
    split
    · next h => intro c hc; simp only [List.mem_singleton] at hc; exact ⟨n, h, hc⟩
    · next h =>
      intro c hc
      rcases List.mem_cons.mp hc with h1 | h1
      · exact ⟨n % 16, Nat.mod_lt _ (by omega), h1⟩
      · exact ih (n / 16) (Nat.div_lt_self (by omega) (by omega)) c h1

theorem hexRev_length_le : ∀ k n : ℕ, n < 16 ^ (k + 1) → (hexRev n).length ≤ k + 1 := by
  intro k
  induction k with
  | zero =>
    intro n hn
    rw [hexRev_eq, if_pos (by simpa using hn)]
    simp
  | succ k ih =>
    intro n hn
    rw [hexRev_eq]
    split
    · simp
    · next h =>
      simp only [List.length_cons]
      have h2 : (16:ℕ) ^ (k + 2) = 16 * 16 ^ (k + 1) := by ring
      have h3 : n / 16 < 16 ^ (k + 1) := Nat.div_lt_of_lt_mul (h2 ▸ hn)
      have := ih (n / 16) h3
      omega

theorem pyFmt02X_length (n : ℕ) (h : n < 256) : (pyFmt02X n).length = 2 := by
  have := hexRev_length_le 1 n (by norm_num; omega)
  rw [pyFmt02X, padLeft_length]
  simp only [List.length_reverse]
  omega

theorem pyFmt02X_mem (n : ℕ) : ∀ c ∈ pyFmt02X n, ∃ d, d < 16 ∧ c = hexDigitChar d := by
  intro c hc
  rcases padLeft_mem _ _ _ c hc with h | h
  · exact ⟨0, by omega, h⟩
  · exact hexRev_mem n c (List.mem_reverse.mp h)

theorem digitChar_isDigit : ∀ d, d < 10 → (digitChar d).isDigit = true := by decide

theorem digitChar_good : ∀ d, d < 10 → GoodChar (digitChar d) := by decide

theorem hexDigitChar_good : ∀ d, d < 16 → GoodChar (hexDigitChar d) := by decide

theorem dot_good : GoodChar '.' := by decide

/-! ### Rounding and the shape of the minutes field -/

theorem roundHalfEven_nonneg {q : ℚ} (h : 0 ≤ q) : 0 ≤ roundHalfEven q := by
  have h0 : (0:ℤ) ≤ ⌊q⌋ := Int.floor_nonneg.mpr h
  unfold roundHalfEven
  dsimp only
  split
  · exact h0
  · split
    · omega
    · split <;> omega

theorem roundHalfEven_le_floor_add_one (q : ℚ) : roundHalfEven q ≤ ⌊q⌋ + 1 := by
  unfold roundHalfEven
  dsimp only
  split
  · omega
  · split
    · omega
    · split <;> omega

/-- For `0 ≤ q < 60` (every minutes value), `f"{q:07.4f}"` is a two-digit
integer part, a dot, and four fractional digits. -/
theorem pyFmt74_shape (q : ℚ) (h0 : 0 ≤ q) (h60 : q < 60) :
    ∃ ip fp, pyFmt74 q = ip ++ '.' :: fp ∧
      ip.length = 2 ∧ fp.length = 4 ∧
      (∀ c ∈ ip, ∃ d, d < 10 ∧ c = digitChar d) ∧
      (∀ c ∈ fp, ∃ d, d < 10 ∧ c = digitChar d) := by
  set m : ℕ := (roundHalfEven (q * 10000)).toNat with hm
  have hq4 : q * 10000 < 600000 := by linarith
  have hfl : ⌊q * 10000⌋ < 600000 := Int.floor_lt.mpr (by exact_mod_cast hq4)
  have hub : roundHalfEven (q * 10000) ≤ 600000 :=
    le_trans (roundHalfEven_le_floor_add_one _) (by omega)
  have hmle : m ≤ 600000 := by
    rw [hm]
    omega
  have hip : m / 10000 < 100 := by omega
  have hfr : m % 10000 < 10000 := Nat.mod_lt _ (by omega)
  have hiplen : (natDec (m / 10000)).length ≤ 2 := natDec_length_le 1 _ (by norm_num; omega)
  have hippos : 1 ≤ (natDec (m / 10000)).length := natDec_length_pos _
  have hfrlen : (natDec (m % 10000)).length ≤ 4 := natDec_length_le 3 _ (by norm_num; omega)
  refine ⟨List.replicate (7 - ((natDec (m / 10000)).length + 5)) '0' ++ natDec (m / 10000),
          padLeft 4 '0' (natDec (m % 10000)), ?_, ?_, ?_, ?_, ?_⟩
  · rw [pyFmt74]
    rw [← hm, padLeft, List.append_assoc]
    congr 2
    simp [padLeft_length, List.length_append]
    omega
  · rw [List.length_append, List.length_replicate]
    omega
  · rw [padLeft_length]
    omega
  · intro c hc
    rcases List.mem_append.mp hc with h | h
    · exact ⟨0, by omega, List.eq_of_mem_replicate h⟩
    · exact natDec_mem _ c h
  · intro c hc
    rcases padLeft_mem _ _ _ c hc with h | h
    · exact ⟨0, by omega, h⟩
    · exact natDec_mem _ c h

/-- Unconditional classification of the characters of the minutes field. -/
theorem pyFmt74_mem (q : ℚ) : ∀ c ∈ pyFmt74 q, c = '.' ∨ ∃ d, d < 10 ∧ c = digitChar d := by
  intro c hc
  rcases padLeft_mem _ _ _ c hc with h | h
  · exact Or.inr ⟨0, by omega, h⟩
  · rcases List.mem_append.mp h with h1 | h1
    · exact Or.inr (natDec_mem _ c h1)
    · rcases List.mem_cons.mp h1 with h2 | h2
      · exact Or.inl h2
      · rcases padLeft_mem _ _ _ c h2 with h3 | h3
        · exact Or.inr ⟨0, by omega, h3⟩
        · exact Or.inr (natDec_mem _ c h3)

/-! ### Shape of `toNmeaLatlon` -/

/-- Closed form of `toNmeaLatlon`: degrees rendering, minutes rendering and
hemisphere, with the `let`s of the source resolved. -/
theorem toNmeaLatlon_eq (v : ℚ) (b : Bool) :
    toNmeaLatlon v b =
      (⟨(if b then pyFmt2 else pyFmt3) ((⌊|v|⌋).toNat) ++
         pyFmt74 ((|v| - (((⌊|v|⌋).toNat : ℕ) : ℚ)) * 60)⟩,
       if v < 0 then (if b then "S" else "W") else (if b then "N" else "E")) := by
  cases b <;> rfl

/-- The minutes value handed to the formatter lies in `[0, 60)`. -/
theorem minutes_range (v : ℚ) :
    0 ≤ (|v| - (((⌊|v|⌋).toNat : ℕ) : ℚ)) * 60 ∧
      (|v| - (((⌊|v|⌋).toNat : ℕ) : ℚ)) * 60 < 60 := by
  have habs : (0:ℚ) ≤ |v| := abs_nonneg v
  have hfl : (0:ℤ) ≤ ⌊|v|⌋ := Int.floor_nonneg.mpr habs
  have hcast : ((((⌊|v|⌋).toNat : ℕ)) : ℚ) = ((⌊|v|⌋ : ℤ) : ℚ) := by
    exact_mod_cast congrArg (fun z : ℤ => (z : ℚ)) (Int.toNat_of_nonneg hfl)
  have hfr0 : (0:ℚ) ≤ |v| - ((⌊|v|⌋ : ℤ) : ℚ) := by
    have := Int.fract_nonneg (|v|)
    rw [Int.fract] at this
    exact this
  have hfr1 : |v| - ((⌊|v|⌋ : ℤ) : ℚ) < 1 := by
    have := Int.fract_lt_one (|v|)
    rw [Int.fract] at this
    exact this
  rw [hcast]
  constructor
  · positivity
  · nlinarith

theorem isDigit_good (c : Char) (h : c.isDigit = true) : GoodChar c := by
  simp [Char.isDigit] at h
  obtain ⟨h1, h2⟩ := h
  have h1' : 48 ≤ c.toNat := h1
  have h2' : c.toNat ≤ 57 := h2
  refine ⟨by omega, ?_, ?_, ?_, ?_⟩
  all_goals intro he; subst he; exact absurd h1' (by decide)

theorem toNmeaLatlon_fst_good (v : ℚ) (b : Bool) :
    ∀ c ∈ (toNmeaLatlon v b).1.data, GoodChar c := by
  rw [toNmeaLatlon_eq]
  intro c hc
  rcases List.mem_append.mp hc with h | h
  · cases b with
    | true =>
      obtain ⟨d, hd, rfl⟩ := pyFmt2_mem _ c (by simpa using h)
      exact digitChar_good d hd
    | false =>
      obtain ⟨d, hd, rfl⟩ := pyFmt3_mem _ c (by simpa using h)
      exact digitChar_good d hd
  · rcases pyFmt74_mem _ c h with rfl | ⟨d, hd, rfl⟩
    · exact dot_good
    · exact digitChar_good d hd

theorem toNmeaLatlon_snd_good (v : ℚ) (b : Bool) :
    ∀ c ∈ (toNmeaLatlon v b).2.data, GoodChar c := by
  rw [toNmeaLatlon_eq]
  by_cases hv : v < 0 <;> cases b <;> simp only [hv, if_true, if_false] <;> decide

theorem toNmeaLatlon_fst_ascii (v : ℚ) (b : Bool) :
    ∀ c ∈ (toNmeaLatlon v b).1.data, c.toNat < 128 :=
  fun c hc => (toNmeaLatlon_fst_good v b c hc).1

/-! ### Checksum bounds and payload character classification -/

theorem foldl_xor_lt (k : ℕ) :
    ∀ (l : List Char) (a : ℕ), (∀ c ∈ l, c.toNat < 2 ^ k) → a < 2 ^ k →
      l.foldl (fun a c => a ^^^ c.toNat) a < 2 ^ k := by
  intro l
  induction l with
  | nil => intro a _ ha; simpa using ha
  | cons c t ih =>
    intro a hl ha
    simp only [List.foldl_cons]
    exact ih _ (fun x hx => hl x (List.mem_cons_of_mem _ hx))
      (Nat.xor_lt_two_pow ha (hl c (List.mem_cons_self _ _)))

theorem xorBytes_lt (k : ℕ) (l : List Char) (hl : ∀ c ∈ l, c.toNat < 2 ^ k) :
    xorBytes l < 2 ^ k :=
  foldl_xor_lt k l 0 hl (pow_pos (by norm_num) k)

theorem checksum_good (p : String) : ∀ c ∈ (checksum p).data, GoodChar c := by
  intro c hc
  obtain ⟨d, hd, rfl⟩ := pyFmt02X_mem _ c hc
  exact hexDigitChar_good d hd

theorem gpggaPayload_mem (utc : String) (lat lon : ℚ) :
    ∀ c ∈ (gpggaPayload utc lat lon).data, c ∈ utc.data ∨ GoodChar c := by
  show ∀ c ∈ (("GPGGA," ++ utc ++ ".00," ++ (toNmeaLatlon lat true).1 ++ "," ++
      (toNmeaLatlon lat true).2 ++ "," ++ (toNmeaLatlon lon false).1 ++ "," ++
      (toNmeaLatlon lon false).2 ++ ",1,08,1.0,0.0,M,0.0,M,," : String)).data,
      c ∈ utc.data ∨ GoodChar c
  simp only [String.data_append, List.forall_mem_append]
  refine ⟨⟨⟨⟨⟨⟨⟨⟨⟨⟨?_, ?_⟩, ?_⟩, ?_⟩, ?_⟩, ?_⟩, ?_⟩, ?_⟩, ?_⟩, ?_⟩, ?_⟩
  · exact fun c hc => Or.inr ((by decide : ∀ c ∈ (("GPGGA," : String)).data, GoodChar c) c hc)
  · exact fun c hc => Or.inl hc
  · exact fun c hc => Or.inr ((by decide : ∀ c ∈ ((".00," : String)).data, GoodChar c) c hc)
  · exact fun c hc => Or.inr (toNmeaLatlon_fst_good lat true c hc)
  · exact fun c hc => Or.inr ((by decide : ∀ c ∈ (("," : String)).data, GoodChar c) c hc)
  · exact fun c hc => Or.inr (toNmeaLatlon_snd_good lat true c hc)
  · exact fun c hc => Or.inr ((by decide : ∀ c ∈ (("," : String)).data, GoodChar c) c hc)
  · exact fun c hc => Or.inr (toNmeaLatlon_fst_good lon false c hc)
  · exact fun c hc => Or.inr ((by decide : ∀ c ∈ (("," : String)).data, GoodChar c) c hc)
  · exact fun c hc => Or.inr (toNmeaLatlon_snd_good lon false c hc)
  · exact fun c hc => Or.inr ((by decide : ∀ c ∈ ((",1,08,1.0,0.0,M,0.0,M,," : String)).data, GoodChar c) c hc)

theorem gprmcPayload_mem (utc date : String) (lat lon : ℚ) :
    ∀ c ∈ (gprmcPayload utc date lat lon).data,
      c ∈ utc.data ∨ c ∈ date.data ∨ GoodChar c := by
  show ∀ c ∈ (("GPRMC," ++ utc ++ ".00,A," ++ (toNmeaLatlon lat true).1 ++ "," ++
      (toNmeaLatlon lat true).2 ++ "," ++ (toNmeaLatlon lon false).1 ++ "," ++
      (toNmeaLatlon lon false).2 ++ ",0.0,0.0," ++ date ++ ",,,A" : String)).data,
      c ∈ utc.data ∨ c ∈ date.data ∨ GoodChar c
  simp only [String.data_append, List.forall_mem_append]
  refine ⟨⟨⟨⟨⟨⟨⟨⟨⟨⟨⟨⟨?_, ?_⟩, ?_⟩, ?_⟩, ?_⟩, ?_⟩, ?_⟩, ?_⟩, ?_⟩, ?_⟩, ?_⟩, ?_⟩, ?_⟩
  · exact fun c hc => Or.inr (Or.inr ((by decide : ∀ c ∈ (("GPRMC," : String)).data, GoodChar c) c hc))
  · exact fun c hc => Or.inl hc
  · exact fun c hc => Or.inr (Or.inr ((by decide : ∀ c ∈ ((".00,A," : String)).data, GoodChar c) c hc))
  · exact fun c hc => Or.inr (Or.inr (toNmeaLatlon_fst_good lat true c hc))
  · exact fun c hc => Or.inr (Or.inr ((by decide : ∀ c ∈ (("," : String)).data, GoodChar c) c hc))
  · exact fun c hc => Or.inr (Or.inr (toNmeaLatlon_snd_good lat true c hc))
  · exact fun c hc => Or.inr (Or.inr ((by decide : ∀ c ∈ (("," : String)).data, GoodChar c) c hc))
  · exact fun c hc => Or.inr (Or.inr (toNmeaLatlon_fst_good lon false c hc))
  · exact fun c hc => Or.inr (Or.inr ((by decide : ∀ c ∈ (("," : String)).data, GoodChar c) c hc))
  · exact fun c hc => Or.inr (Or.inr (toNmeaLatlon_snd_good lon false c hc))
  · exact fun c hc => Or.inr (Or.inr ((by decide : ∀ c ∈ ((",0.0,0.0," : String)).data, GoodChar c) c hc))
  · exact fun c hc => Or.inr (Or.inl hc)
  · exact fun c hc => Or.inr (Or.inr ((by decide : ∀ c ∈ ((",,,A" : String)).data, GoodChar c) c hc))

theorem gpggaPayload_good (utc : String) (lat lon : ℚ)
    (hutc : ∀ c ∈ utc.data, c.isDigit) :
    ∀ c ∈ (gpggaPayload utc lat lon).data, GoodChar c := by
  intro c hc
  rcases gpggaPayload_mem utc lat lon c hc with h | h
  · exact isDigit_good c (hutc c h)
  · exact h

theorem gprmcPayload_good (utc date : String) (lat lon : ℚ)
    (hutc : ∀ c ∈ utc.data, c.isDigit) (hdate : ∀ c ∈ date.data, c.isDigit) :
    ∀ c ∈ (gprmcPayload utc date lat lon).data, GoodChar c := by
  intro c hc
  rcases gprmcPayload_mem utc date lat lon c hc with h | h | h
  · exact isDigit_good c (hutc c h)
  · exact isDigit_good c (hdate c h)
  · exact h

theorem takeWhile_append_of_all {p : Char → Bool} :
    ∀ l r : List Char, (∀ c ∈ l, p c = true) →
      (l ++ r).takeWhile p = l ++ r.takeWhile p := by
  intro l r hl
  induction l with
  | nil => simp
  | cons c t ih =>
    simp only [List.cons_append, List.takeWhile_cons, hl c (List.mem_cons_self _ _), if_true]
    rw [ih (fun x hx => hl x (List.mem_cons_of_mem _ hx))]

theorem dropWhile_append_of_all {p : Char → Bool} :
    ∀ l r : List Char, (∀ c ∈ l, p c = true) →
      (l ++ r).dropWhile p = r.dropWhile p := by
  intro l r hl
  induction l with
  | nil => simp
  | cons c t ih =>
    simp only [List.cons_append, List.dropWhile_cons, hl c (List.mem_cons_self _ _), if_true]
    exact ih (fun x hx => hl x (List.mem_cons_of_mem _ hx))

set_option maxRecDepth 4096 in
theorem pyFmt02X_eq_pair :
    ∀ n, n < 256 → pyFmt02X n = [hexDigitChar (n / 16), hexDigitChar (n % 16)] := by
  decide

theorem hexVal_hexDigitChar : ∀ d, d < 16 → hexVal? (hexDigitChar d) = some d := by
  decide

theorem checksumVerifyL_frame (payload tail : List Char)
    (hstar : ∀ c ∈ payload, c ≠ '*') (hascii : ∀ c ∈ payload, c.toNat < 128) :
    checksumVerifyL ('$' :: (payload ++ '*' :: (pyFmt02X (xorBytes payload) ++ tail))) = true := by
  have hx : xorBytes payload < 256 :=
    lt_of_lt_of_le (xorBytes_lt 7 payload hascii) (by norm_num)
  have hp : ∀ c ∈ payload, (c != '*') = true := fun c hc => bne_iff_ne.mpr (hstar c hc)
  have htake : (payload ++ '*' :: (pyFmt02X (xorBytes payload) ++ tail)).takeWhile
      (fun c => c != '*') = payload := by
    rw [takeWhile_append_of_all _ _ hp, List.takeWhile_cons]
    simp
  have hdrop : (payload ++ '*' :: (pyFmt02X (xorBytes payload) ++ tail)).dropWhile
      (fun c => c != '*') = '*' :: (pyFmt02X (xorBytes payload) ++ tail) := by
    rw [dropWhile_append_of_all _ _ hp, List.dropWhile_cons]
    simp
  have hd : xorBytes payload / 16 < 16 := Nat.div_lt_of_lt_mul (by omega)
  have hm : xorBytes payload % 16 < 16 := Nat.mod_lt _ (by norm_num)
  simp only [checksumVerifyL]
  rw [hdrop, htake, pyFmt02X_eq_pair _ hx]
  simp only [List.cons_append, List.nil_append, hexVal_hexDigitChar _ hd,
    hexVal_hexDigitChar _ hm]
  simp [Nat.div_add_mod]

/-! ## Claim theorems -/


/-! ### Parsing and ticking -/

theorem isDigit_toNat_bounds (c : Char) (h : c.isDigit = true) :
    48 ≤ c.toNat ∧ c.toNat ≤ 57 := by
  simp [Char.isDigit] at h
  obtain ⟨h1, h2⟩ := h
  exact ⟨h1, h2⟩

theorem parse_pyFmt2 : ∀ n, n < 100 → parseDigits (pyFmt2 n) = some n := by decide

theorem parseDigits_pair (a b : Char) (ha : a.isDigit = true) (hb : b.isDigit = true) :
    parseDigits [a, b] = some (10 * (a.toNat - 48) + (b.toNat - 48)) := by
  simp [parseDigits, digitVal?, ha, hb, List.foldlM]

theorem pyFmt2_digits (n : ℕ) : ∀ c ∈ pyFmt2 n, c.isDigit = true := by
  intro c hc
  obtain ⟨d, hd, rfl⟩ := pyFmt2_mem n c hc
  exact digitChar_isDigit d hd

theorem pyFmt3_digits (n : ℕ) : ∀ c ∈ pyFmt3 n, c.isDigit = true := by
  intro c hc
  obtain ⟨d, hd, rfl⟩ := pyFmt3_mem n c hc
  exact digitChar_isDigit d hd

theorem fmtTime_length (hh mm ss : ℕ) (h1 : hh < 100) (h2 : mm < 100) (h3 : ss < 100) :
    (fmtTime hh mm ss).length = 6 := by
  show (pyFmt2 hh ++ pyFmt2 mm ++ pyFmt2 ss).length = 6
  rw [List.length_append, List.length_append,
    pyFmt2_length _ h1, pyFmt2_length _ h2, pyFmt2_length _ h3]

theorem fmtTime_digits (hh mm ss : ℕ) :
    ∀ c ∈ (fmtTime hh mm ss).data, c.isDigit = true := by
  intro c hc
  rcases List.mem_append.mp
      (show c ∈ (pyFmt2 hh ++ pyFmt2 mm) ++ pyFmt2 ss from hc) with h | h
  · rcases List.mem_append.mp h with h1 | h1
    · exact pyFmt2_digits _ c h1
    · exact pyFmt2_digits _ c h1
  · exact pyFmt2_digits _ c h

/-- `_tick_time` on a rendered valid-looking time string: parse back the three
two-digit fields, add the truncated elapsed seconds mod 86400, re-render. -/
theorem tickTime_fmtTime (hh mm ss : ℕ) (h1 : hh < 100) (h2 : mm < 100) (h3 : ss < 100)
    (e : ℚ) :
    tickTime (fmtTime hh mm ss) e =
      some (fmtTime
        (((((hh : ℤ) * 3600 + (mm : ℤ) * 60 + (ss : ℤ) + truncQ e) % 86400).toNat) / 3600)
        ((((((hh : ℤ) * 3600 + (mm : ℤ) * 60 + (ss : ℤ) + truncQ e) % 86400).toNat) % 3600) / 60)
        (((((hh : ℤ) * 3600 + (mm : ℤ) * 60 + (ss : ℤ) + truncQ e) % 86400).toNat) % 60)) := by
  have la : (pyFmt2 hh).length = 2 := pyFmt2_length _ h1
  have lb : (pyFmt2 mm).length = 2 := pyFmt2_length _ h2
  have ht1 : (fmtTime hh mm ss).data.take 2 = pyFmt2 hh := by
    show (pyFmt2 hh ++ pyFmt2 mm ++ pyFmt2 ss).take 2 = pyFmt2 hh
    rw [List.append_assoc, List.take_left' la]
  have ht2 : ((fmtTime hh mm ss).data.drop 2).take 2 = pyFmt2 mm := by
    show ((pyFmt2 hh ++ pyFmt2 mm ++ pyFmt2 ss).drop 2).take 2 = pyFmt2 mm
    rw [List.append_assoc, List.drop_left' la, List.take_left' lb]
  have ht3 : ((fmtTime hh mm ss).data.drop 4).take 2 = pyFmt2 ss := by
    show ((pyFmt2 hh ++ pyFmt2 mm ++ pyFmt2 ss).drop 4).take 2 = pyFmt2 ss
    rw [List.drop_left' (show ((pyFmt2 hh ++ pyFmt2 mm).length) = 4 by
          rw [List.length_append, la, lb]),
      List.take_of_length_le (le_of_eq (pyFmt2_length _ h3))]
  simp only [tickTime, ht1, ht2, ht3, parse_pyFmt2 _ h1, parse_pyFmt2 _ h2, parse_pyFmt2 _ h3]
  norm_num

/-- The character data of a framed sentence `$P*CC\r\n`. -/
theorem sentence_data_frame (P : String) :
    ("$" ++ P ++ "*" ++ checksum P ++ "\r\n").data
      = '$' :: (P.data ++ '*' :: (pyFmt02X (xorBytes P.data) ++ ['\r', '\n'])) := by
  simp only [String.data_append, List.append_assoc]
  exact rfl

/-- C1: for every valid position (latitude in [-90,90], longitude in
[-180,180]), every time-of-day string and every date string (digit strings),
each sentence produced by `_make_gpgga` and `_make_gprmc` round-trips its
checksum: the XOR of the byte values of the characters strictly between the
leading `$` and the `*` equals the two-hex-digit value that follows the `*`. -/
theorem gga_rmc_checksum_roundtrip (utc date : String) (lat lon : ℚ)
    (hlat1 : -90 ≤ lat) (hlat2 : lat ≤ 90) (hlon1 : -180 ≤ lon) (hlon2 : lon ≤ 180)
    (hutc : ∀ c ∈ utc.data, c.isDigit) (hdate : ∀ c ∈ date.data, c.isDigit) :
    checksumVerify (makeGpgga utc lat lon) = true ∧
    checksumVerify (makeGprmc utc date lat lon) = true := by
  constructor
  · have hgood := gpggaPayload_good utc lat lon hutc
    show checksumVerifyL (makeGpgga utc lat lon).data = true
    have hdata : (makeGpgga utc lat lon).data
        = '$' :: ((gpggaPayload utc lat lon).data ++ '*' ::
            (pyFmt02X (xorBytes (gpggaPayload utc lat lon).data) ++ ['\r', '\n'])) :=
      sentence_data_frame (gpggaPayload utc lat lon)
    rw [hdata]
    exact checksumVerifyL_frame _ _
      (fun c hc => (hgood c hc).2.2.1) (fun c hc => (hgood c hc).1)
  · have hgood := gprmcPayload_good utc date lat lon hutc hdate
    show checksumVerifyL (makeGprmc utc date lat lon).data = true
    have hdata : (makeGprmc utc date lat lon).data
        = '$' :: ((gprmcPayload utc date lat lon).data ++ '*' ::
            (pyFmt02X (xorBytes (gprmcPayload utc date lat lon).data) ++ ['\r', '\n'])) :=
      sentence_data_frame (gprmcPayload utc date lat lon)
    rw [hdata]
    exact checksumVerifyL_frame _ _
      (fun c hc => (hgood c hc).2.2.1) (fun c hc => (hgood c hc).1)

set_option maxRecDepth 8192 in
set_option maxHeartbeats 2000000 in
unseal Rat.mul Rat.add Rat.sub Rat.inv in
theorem gga_rmc_checksum_roundtrip_witness :
    checksumVerify (makeGpgga "120000" (48972657 / 1000000 : ℚ)
      (-(123610603 / 1000000) : ℚ)) = true ∧
    checksumVerify (makeGprmc "120000" "190226" (48972657 / 1000000 : ℚ)
      (-(123610603 / 1000000) : ℚ)) = true :=
  gga_rmc_checksum_roundtrip "120000" "190226"
    (48972657 / 1000000 : ℚ) (-(123610603 / 1000000) : ℚ)
    (by norm_num) (by norm_num) (by norm_num) (by norm_num)
    (by decide) (by decide)

set_option maxRecDepth 8192 in
set_option maxHeartbeats 2000000 in
unseal Rat.mul Rat.add Rat.sub Rat.inv in
/-- C2: for position (48.972657, -123.610603) and time `"120000"`,
`_make_gpgga` produces exactly the expected sentence; the latitude field is
`4858.3594` with hemisphere `N`, the longitude field `12336.6362` with
hemisphere `W`, and the trailing hex pair `4A` is the XOR checksum of the
payload between `$` and `*`. -/
theorem gpgga_concrete_scenario :
    makeGpgga "120000" (48972657 / 1000000 : ℚ) (-(123610603 / 1000000) : ℚ) =
      "$GPGGA,120000.00,4858.3594,N,12336.6362,W,1,08,1.0,0.0,M,0.0,M,,*4A\r\n" ∧
    checksum "GPGGA,120000.00,4858.3594,N,12336.6362,W,1,08,1.0,0.0,M,0.0,M,," = "4A" ∧
    toNmeaLatlon (48972657 / 1000000 : ℚ) true = ("4858.3594", "N") ∧
    toNmeaLatlon (-(123610603 / 1000000) : ℚ) false = ("12336.6362", "W") := by
  refine ⟨?_, ?_, ?_, ?_⟩ <;> decide

/-- C4 counterexample: the code does not mask the running XOR to 8 bits.  For
the one-character payload U+0100 (code point 256) the XOR is 256 and
`_checksum` renders `"100"` — three characters, not two, and different from
what an 8-bit mask would give. -/
theorem checksum_not_masked_counterexample :
    checksum (String.mk [Char.ofNat 256]) = "100" ∧
    (checksum (String.mk [Char.ofNat 256])).length ≠ 2 ∧
    xorBytes [Char.ofNat 256] % 256 ≠ xorBytes [Char.ofNat 256] := by
  refine ⟨?_, ?_, ?_⟩ <;> decide

/-- C4 (amended): for every payload string whose characters have code points
below 256 — in particular every ASCII payload the program builds — the running
XOR stays below 256 (so the 8-bit mask is a no-op, though the code performs no
masking), and `_checksum` renders it as exactly two uppercase hexadecimal
digits; `_checksum("")` is `"00"`, value 0 renders `"00"` and value 255
renders `"FF"`.  The function is a pure function with no error conditions. -/
theorem checksum_spec_amended (p : String) (h : ∀ c ∈ p.data, c.toNat < 256) :
    xorBytes p.data < 256 ∧
    xorBytes p.data % 256 = xorBytes p.data ∧
    (checksum p).length = 2 ∧
    (∀ c ∈ (checksum p).data, c.isDigit ∨ ('A' ≤ c ∧ c ≤ 'F')) ∧
    checksum "" = "00" ∧
    pyFmt02X 0 = ('0' :: '0' :: []) ∧ pyFmt02X 255 = ('F' :: 'F' :: []) := by
  have hx : xorBytes p.data < 256 := by
    have h8 : ∀ c ∈ p.data, c.toNat < 2 ^ 8 := by
      intro c hc
      simpa using h c hc
    simpa using xorBytes_lt 8 p.data h8
  refine ⟨hx, Nat.mod_eq_of_lt hx, pyFmt02X_length _ hx, ?_, by decide, by decide, by decide⟩
  intro c hc
  obtain ⟨d, hd, rfl⟩ := pyFmt02X_mem _ c hc
  exact (by decide :
    ∀ d, d < 16 → ((hexDigitChar d).isDigit ∨ ('A' ≤ hexDigitChar d ∧ hexDigitChar d ≤ 'F')))
    d hd

theorem checksum_spec_amended_witness :
    (∀ c ∈ ("GPGGA" : String).data, c.toNat < 256) ∧
    xorBytes ("GPGGA" : String).data < 256 ∧
    (checksum "GPGGA").length = 2 :=
  ⟨by decide, (checksum_spec_amended "GPGGA" (by decide)).1,
    (checksum_spec_amended "GPGGA" (by decide)).2.2.1⟩

set_option maxRecDepth 8192 in
set_option maxHeartbeats 1000000 in
unseal Rat.mul Rat.add Rat.sub Rat.inv in
/-- C7 counterexample: there is no startup validation — with the out-of-range
latitude 91 (`|lat| > 90`) the builder still produces a complete, well-formed
sentence instead of failing, so sentences are built from invalid
configuration. -/
theorem no_validation_counterexample :
    makeGpgga "120000" (91 : ℚ) (0 : ℚ) =
      "$GPGGA,120000.00,9100.0000,N,00000.0000,E,1,08,1.0,0.0,M,0.0,M,,*5E\r\n" := by
  decide

set_option maxRecDepth 8192 in
set_option maxHeartbeats 1000000 in
unseal Rat.mul Rat.add Rat.sub Rat.inv in
/-- C7 (amended): the module performs no configuration validation.
Out-of-range positions are not detected: sentence construction is total and
yields ordinary sentences for them.  A malformed start-time string is detected
only when `_tick_time` first parses it (modelled by `none`, i.e. a
`ValueError`), which in the main loop happens before the first sentence of the
first cycle is built, so nothing is transmitted in that case; the date string
is never parsed at all. -/
theorem config_validation_amended :
    makeGpgga "120000" (91 : ℚ) (0 : ℚ) =
      "$GPGGA,120000.00,9100.0000,N,00000.0000,E,1,08,1.0,0.0,M,0.0,M,,*5E\r\n" ∧
    makeGprmc "120000" "190226" (91 : ℚ) (0 : ℚ) =
      "$GPRMC,120000.00,A,9100.0000,N,00000.0000,E,0.0,0.0,190226,,,A*5B\r\n" ∧
    tickTime "xx0000" (0 : ℚ) = none ∧
    tickTime "" (0 : ℚ) = none := by
  refine ⟨?_, ?_, ?_, ?_⟩ <;> decide

set_option maxRecDepth 8192 in
set_option maxHeartbeats 1000000 in
unseal Rat.mul Rat.add Rat.sub Rat.inv in
/-- C10: for the in-range latitude 89.99999992 the minutes value
`(|v| - floor |v|) * 60 = 59.9999952` rounds under the four-fractional-digit
formatting up to `60.0000`, so the formatted text is `"8960.0000"`: the
minutes portion reads 60 rather than a value strictly below 60, and the
overflow is not carried into the degrees field (which stays `89`). -/
theorem minutes_rounding_overflow :
    |(8999999992 / 100000000 : ℚ)| ≤ 90 ∧
    toNmeaLatlon (8999999992 / 100000000 : ℚ) true = ("8960.0000", "N") ∧
    pyFmt74 ((|(8999999992 / 100000000 : ℚ)| -
        (((⌊|(8999999992 / 100000000 : ℚ)|⌋).toNat : ℕ) : ℚ)) * 60) =
      ("60.0000" : String).data ∧
    ("8960.0000" : String).take 2 = "89" ∧
    ("8960.0000" : String).drop 2 = "60.0000" := by
  refine ⟨?_, ?_, ?_, ?_, ?_⟩ <;> decide

/-- C5: `_tick_time` computes `(hh*3600 + mm*60 + ss + trunc elapsed) mod 86400`
and decomposes it back into hours, minutes and seconds; consequently, for every
valid start time-of-day, ticking by 0 or by 86400 returns the start unchanged,
ticking 23:59:59 by 1 gives 00:00:00, and ticking 12:00:00 by 3661 gives
13:01:01. -/
theorem tick_time_identities :
    (∀ hh mm ss : ℕ, hh < 24 → mm < 60 → ss < 60 →
      (∀ e : ℚ, tickTime (fmtTime hh mm ss) e =
        some (fmtTime
          (((((hh : ℤ) * 3600 + (mm : ℤ) * 60 + (ss : ℤ) + truncQ e) % 86400).toNat) / 3600)
          ((((((hh : ℤ) * 3600 + (mm : ℤ) * 60 + (ss : ℤ) + truncQ e) % 86400).toNat) % 3600) / 60)
          (((((hh : ℤ) * 3600 + (mm : ℤ) * 60 + (ss : ℤ) + truncQ e) % 86400).toNat) % 60))) ∧
      tickTime (fmtTime hh mm ss) 0 = some (fmtTime hh mm ss) ∧
      tickTime (fmtTime hh mm ss) 86400 = some (fmtTime hh mm ss)) ∧
    tickTime "235959" 1 = some "000000" ∧
    tickTime "120000" 3661 = some "130101" := by
  refine ⟨?_, by decide, by decide⟩
  intro hh mm ss hh24 mm60 ss60
  have hgen := tickTime_fmtTime hh mm ss (by omega) (by omega) (by omega)
  refine ⟨hgen, ?_, ?_⟩
  · have h0 : truncQ (0 : ℚ) = 0 := by norm_num [truncQ]
    rw [hgen 0, h0]
    have e1 : ((((hh : ℤ) * 3600 + (mm : ℤ) * 60 + (ss : ℤ) + 0) % 86400)).toNat
        = hh * 3600 + mm * 60 + ss := by omega
    rw [e1]
    have g1 : (hh * 3600 + mm * 60 + ss) / 3600 = hh := by omega
    have g2 : (hh * 3600 + mm * 60 + ss) % 3600 / 60 = mm := by omega
    have g3 : (hh * 3600 + mm * 60 + ss) % 60 = ss := by omega
    rw [g1, g2, g3]
  · have h0 : truncQ (86400 : ℚ) = 86400 := by norm_num [truncQ]
    rw [hgen 86400, h0]
    have e1 : ((((hh : ℤ) * 3600 + (mm : ℤ) * 60 + (ss : ℤ) + 86400) % 86400)).toNat
        = hh * 3600 + mm * 60 + ss := by omega
    rw [e1]
    have g1 : (hh * 3600 + mm * 60 + ss) / 3600 = hh := by omega
    have g2 : (hh * 3600 + mm * 60 + ss) % 3600 / 60 = mm := by omega
    have g3 : (hh * 3600 + mm * 60 + ss) % 60 = ss := by omega
    rw [g1, g2, g3]

theorem tick_time_identities_witness :
    tickTime (fmtTime 12 0 0) 0 = some (fmtTime 12 0 0) ∧
    tickTime (fmtTime 12 0 0) 86400 = some (fmtTime 12 0 0) :=
  ⟨(tick_time_identities.1 12 0 0 (by decide) (by decide) (by decide)).2.1,
   (tick_time_identities.1 12 0 0 (by decide) (by decide) (by decide)).2.2⟩

/-- C9: `_tick_time` is total over any elapsed value (positive, zero, negative
or fractional): whenever the first six characters of the start string are
digits, it returns a six-digit `HHMMSS` string with hours below 24 and minutes
and seconds below 60, because the truncated total is reduced modulo 86400 to a
non-negative value before decomposition. -/
theorem tick_time_total (start : String) (e : ℚ)
    (h6 : 6 ≤ start.data.length) (hd : ∀ c ∈ start.data.take 6, c.isDigit = true) :
    ∃ hh mm ss : ℕ, hh < 24 ∧ mm < 60 ∧ ss < 60 ∧
      tickTime start e = some (fmtTime hh mm ss) ∧
      (fmtTime hh mm ss).length = 6 ∧
      (∀ c ∈ (fmtTime hh mm ss).data, c.isDigit = true) := by
  obtain ⟨l⟩ := start
  rcases l with _ | ⟨a, _ | ⟨b, _ | ⟨c, _ | ⟨d, _ | ⟨e2, _ | ⟨f, r⟩⟩⟩⟩⟩⟩ <;>
    simp only [String.length, List.length_cons, List.length_nil] at h6 <;>
    try omega
  have hda : a.isDigit = true := hd a (by simp)
  have hdb : b.isDigit = true := hd b (by simp)
  have hdc : c.isDigit = true := hd c (by simp)
  have hdd : d.isDigit = true := hd d (by simp)
  have hde : e2.isDigit = true := hd e2 (by simp)
  have hdf : f.isDigit = true := hd f (by simp)
  have p1 : parseDigits ((String.mk (a :: b :: c :: d :: e2 :: f :: r)).data.take 2)
      = some (10 * (a.toNat - 48) + (b.toNat - 48)) := parseDigits_pair a b hda hdb
  have p2 : parseDigits (((String.mk (a :: b :: c :: d :: e2 :: f :: r)).data.drop 2).take 2)
      = some (10 * (c.toNat - 48) + (d.toNat - 48)) := parseDigits_pair c d hdc hdd
  have p3 : parseDigits (((String.mk (a :: b :: c :: d :: e2 :: f :: r)).data.drop 4).take 2)
      = some (10 * (e2.toNat - 48) + (f.toNat - 48)) := parseDigits_pair e2 f hde hdf
  set X : ℤ := ((10 * (a.toNat - 48) + (b.toNat - 48) : ℕ) : ℤ) * 3600 +
      ((10 * (c.toNat - 48) + (d.toNat - 48) : ℕ) : ℤ) * 60 +
      ((10 * (e2.toNat - 48) + (f.toNat - 48) : ℕ) : ℤ) + truncQ e with hX
  have hnn : 0 ≤ X % (24 * 3600) := Int.emod_nonneg X (by norm_num)
  have hlt : X % (24 * 3600) < 86400 := by
    have := Int.emod_lt_of_pos X (show (0 : ℤ) < 24 * 3600 by norm_num)
    omega
  refine ⟨(X % (24 * 3600)).toNat / 3600, ((X % (24 * 3600)).toNat % 3600) / 60,
    (X % (24 * 3600)).toNat % 60, by omega, by omega, by omega, ?_, ?_, ?_⟩
  · simp only [tickTime, p1, p2, p3, ← hX]
  · exact fmtTime_length _ _ _ (by omega) (by omega) (by omega)
  · exact fmtTime_digits _ _ _

theorem tick_time_total_witness :
    6 ≤ ("120000" : String).data.length ∧
    (∀ c ∈ ("120000" : String).data.take 6, c.isDigit = true) ∧
    ∃ hh mm ss : ℕ, hh < 24 ∧ mm < 60 ∧ ss < 60 ∧
      tickTime "120000" (-(5 / 2) : ℚ) = some (fmtTime hh mm ss) ∧
      (fmtTime hh mm ss).length = 6 ∧
      (∀ c ∈ (fmtTime hh mm ss).data, c.isDigit = true) :=
  ⟨by decide, by decide,
    tick_time_total "120000" (-(5 / 2) : ℚ) (by decide) (by decide)⟩

/-- C6: the GGA payload consists, in order, of talker `GPGGA`, the time as
`HHMMSS.00`, latitude text and hemisphere, longitude text and hemisphere, fix
quality `1`, satellite count `08`, HDOP `1.0`, altitude `0.0,M`, geoid
separation `0.0,M` and two trailing empty fields; the RMC payload of talker
`GPRMC`, the time as `HHMMSS.00`, status `A`, latitude text and hemisphere,
longitude text and hemisphere, speed `0.0`, course `0.0`, the date string, two
empty fields and mode `A`; both render as `$` + payload + `*` + checksum +
CRLF. -/
theorem payload_field_order (utc date : String) (lat lon : ℚ) :
    gpggaPayload utc lat lon = joinComma ["GPGGA", utc ++ ".00",
      (toNmeaLatlon lat true).1, (toNmeaLatlon lat true).2,
      (toNmeaLatlon lon false).1, (toNmeaLatlon lon false).2,
      "1", "08", "1.0", "0.0", "M", "0.0", "M", "", ""] ∧
    gprmcPayload utc date lat lon = joinComma ["GPRMC", utc ++ ".00", "A",
      (toNmeaLatlon lat true).1, (toNmeaLatlon lat true).2,
      (toNmeaLatlon lon false).1, (toNmeaLatlon lon false).2,
      "0.0", "0.0", date, "", "", "A"] ∧
    makeGpgga utc lat lon = "$" ++ gpggaPayload utc lat lon ++ "*" ++
      checksum (gpggaPayload utc lat lon) ++ "\r\n" ∧
    makeGprmc utc date lat lon = "$" ++ gprmcPayload utc date lat lon ++ "*" ++
      checksum (gprmcPayload utc date lat lon) ++ "\r\n" := by
  refine ⟨?_, ?_, rfl, rfl⟩
  · apply String.ext
    show ("GPGGA," ++ utc ++ ".00," ++ (toNmeaLatlon lat true).1 ++ "," ++
      (toNmeaLatlon lat true).2 ++ "," ++ (toNmeaLatlon lon false).1 ++ "," ++
      (toNmeaLatlon lon false).2 ++ ",1,08,1.0,0.0,M,0.0,M,," : String).data = _
    simp only [joinComma, String.data_append, List.append_assoc]
    exact rfl
  · apply String.ext
    show ("GPRMC," ++ utc ++ ".00,A," ++ (toNmeaLatlon lat true).1 ++ "," ++
      (toNmeaLatlon lat true).2 ++ "," ++ (toNmeaLatlon lon false).1 ++ "," ++
      (toNmeaLatlon lon false).2 ++ ",0.0,0.0," ++ date ++ ",,,A" : String).data = _
    simp only [joinComma, String.data_append, List.append_assoc]
    exact rfl

/-- Every character of a framed sentence `$P*CC\r\n` over a good payload is
ASCII. -/
theorem sentence_ascii (P : String) (hP : ∀ c ∈ P.data, GoodChar c) :
    ∀ c ∈ ("$" ++ P ++ "*" ++ checksum P ++ "\r\n").data, c.toNat < 128 := by
  intro c hc
  rw [sentence_data_frame] at hc
  rcases List.mem_cons.mp hc with rfl | hc
  · decide
  rcases List.mem_append.mp hc with h | h
  · exact (hP c h).1
  rcases List.mem_cons.mp h with rfl | h
  · decide
  rcases List.mem_append.mp h with h | h
  · obtain ⟨d, hd, rfl⟩ := pyFmt02X_mem _ c h
    exact (hexDigitChar_good d hd).1
  · rcases List.mem_cons.mp h with rfl | h
    · decide
    rcases List.mem_cons.mp h with rfl | h
    · decide
    · exact absurd h (List.not_mem_nil c)

/-- C8: for valid position, digit time and digit date inputs, the payload of
each sentence contains no `$`, `*`, CR or LF; the checksum is computed over
exactly that payload (the sentence literally renders `$` + payload + `*` +
`_checksum(payload)` + CRLF); the rendered sentence is ASCII-only. -/
theorem payload_invariants (utc date : String) (lat lon : ℚ)
    (hlat1 : -90 ≤ lat) (hlat2 : lat ≤ 90) (hlon1 : -180 ≤ lon) (hlon2 : lon ≤ 180)
    (hutc : ∀ c ∈ utc.data, c.isDigit = true) (hdate : ∀ c ∈ date.data, c.isDigit = true) :
    (∀ c ∈ (gpggaPayload utc lat lon).data,
      c ≠ '$' ∧ c ≠ '*' ∧ c ≠ '\r' ∧ c ≠ '\n' ∧ c.toNat < 128) ∧
    (∀ c ∈ (gprmcPayload utc date lat lon).data,
      c ≠ '$' ∧ c ≠ '*' ∧ c ≠ '\r' ∧ c ≠ '\n' ∧ c.toNat < 128) ∧
    makeGpgga utc lat lon = "$" ++ gpggaPayload utc lat lon ++ "*" ++
      checksum (gpggaPayload utc lat lon) ++ "\r\n" ∧
    makeGprmc utc date lat lon = "$" ++ gprmcPayload utc date lat lon ++ "*" ++
      checksum (gprmcPayload utc date lat lon) ++ "\r\n" ∧
    (∀ c ∈ (makeGpgga utc lat lon).data, c.toNat < 128) ∧
    (∀ c ∈ (makeGprmc utc date lat lon).data, c.toNat < 128) := by
  have hg1 := gpggaPayload_good utc lat lon hutc
  have hg2 := gprmcPayload_good utc date lat lon hutc hdate
  refine ⟨?_, ?_, rfl, rfl, ?_, ?_⟩
  · intro c hc
    obtain ⟨ha, hb, hc2, hd2, he⟩ := hg1 c hc
    exact ⟨hb, hc2, hd2, he, ha⟩
  · intro c hc
    obtain ⟨ha, hb, hc2, hd2, he⟩ := hg2 c hc
    exact ⟨hb, hc2, hd2, he, ha⟩
  · exact sentence_ascii _ hg1
  · exact sentence_ascii _ hg2

set_option maxRecDepth 8192 in
set_option maxHeartbeats 1000000 in
unseal Rat.mul Rat.add Rat.sub Rat.inv in
theorem payload_invariants_witness :
    makeGpgga "120000" (48972657 / 1000000 : ℚ) (-(123610603 / 1000000) : ℚ) =
      "$" ++ gpggaPayload "120000" (48972657 / 1000000 : ℚ) (-(123610603 / 1000000) : ℚ)
      ++ "*" ++ checksum (gpggaPayload "120000" (48972657 / 1000000 : ℚ)
        (-(123610603 / 1000000) : ℚ)) ++ "\r\n" :=
  (payload_invariants "120000" "190226"
    (48972657 / 1000000 : ℚ) (-(123610603 / 1000000) : ℚ)
    (by norm_num) (by norm_num) (by norm_num) (by norm_num)
    (by decide) (by decide)).2.2.1

/-- C3: for every latitude in [-90,90], `_to_nmea_latlon(v, True)` returns
hemisphere `N` iff `v ≥ 0` (else `S`), a degrees field of exactly two digits
equal to `floor |v|` zero-padded, and a minutes field of exactly seven
characters, `MM.MMMM` with exactly four fractional digits, representing
`(|v| - floor |v|) * 60` under the formatter's rounding rule; for every
longitude in [-180,180], `_to_nmea_latlon(v, False)` returns `E` iff `v ≥ 0`
(else `W`) and a degrees field of exactly three digits, with the same minutes
format. -/
theorem to_nmea_latlon_format :
    (∀ v : ℚ, -90 ≤ v → v ≤ 90 →
      (toNmeaLatlon v true).2 = (if 0 ≤ v then "N" else "S") ∧
      ∃ m : List Char,
        (toNmeaLatlon v true).1 = ⟨pyFmt2 ((⌊|v|⌋).toNat) ++ m⟩ ∧
        (pyFmt2 ((⌊|v|⌋).toNat)).length = 2 ∧
        (∀ c ∈ pyFmt2 ((⌊|v|⌋).toNat), c.isDigit = true) ∧
        m = pyFmt74 ((|v| - (((⌊|v|⌋).toNat : ℕ) : ℚ)) * 60) ∧
        m.length = 7 ∧
        ∃ ip fp, m = ip ++ '.' :: fp ∧ ip.length = 2 ∧ fp.length = 4 ∧
          (∀ c ∈ ip, c.isDigit = true) ∧ (∀ c ∈ fp, c.isDigit = true)) ∧
    (∀ v : ℚ, -180 ≤ v → v ≤ 180 →
      (toNmeaLatlon v false).2 = (if 0 ≤ v then "E" else "W") ∧
      ∃ m : List Char,
        (toNmeaLatlon v false).1 = ⟨pyFmt3 ((⌊|v|⌋).toNat) ++ m⟩ ∧
        (pyFmt3 ((⌊|v|⌋).toNat)).length = 3 ∧
        (∀ c ∈ pyFmt3 ((⌊|v|⌋).toNat), c.isDigit = true) ∧
        m = pyFmt74 ((|v| - (((⌊|v|⌋).toNat : ℕ) : ℚ)) * 60) ∧
        m.length = 7 ∧
        ∃ ip fp, m = ip ++ '.' :: fp ∧ ip.length = 2 ∧ fp.length = 4 ∧
          (∀ c ∈ ip, c.isDigit = true) ∧ (∀ c ∈ fp, c.isDigit = true)) := by
  constructor
  · intro v h1 h2
    have habs : |v| ≤ 90 := abs_le.mpr ⟨h1, h2⟩
    have hfl : (⌊|v|⌋).toNat ≤ 90 := by
      have h3 : ⌊|v|⌋ ≤ ⌊(90 : ℚ)⌋ := Int.floor_le_floor habs
      have h4 : ⌊(90 : ℚ)⌋ = 90 := by norm_num
      omega
    obtain ⟨hm0, hm60⟩ := minutes_range v
    obtain ⟨ip, fp, heq, hip2, hfp4, hipd, hfpd⟩ := pyFmt74_shape _ hm0 hm60
    constructor
    · rw [toNmeaLatlon_eq]
      rcases lt_or_le v 0 with hv | hv
      · rw [if_pos hv, if_neg (not_le.mpr hv)]
        rfl
      · rw [if_neg (not_lt.mpr hv), if_pos hv]
        rfl
    · refine ⟨pyFmt74 ((|v| - (((⌊|v|⌋).toNat : ℕ) : ℚ)) * 60), ?_,
        pyFmt2_length _ (by omega), pyFmt2_digits _, rfl, ?_, ip, fp, heq, hip2, hfp4,
        fun c hc => by obtain ⟨d, hd, rfl⟩ := hipd c hc; exact digitChar_isDigit d hd,
        fun c hc => by obtain ⟨d, hd, rfl⟩ := hfpd c hc; exact digitChar_isDigit d hd⟩
      · rw [toNmeaLatlon_eq]
        rfl
      · rw [heq, List.length_append, List.length_cons]
        omega
  · intro v h1 h2
    have habs : |v| ≤ 180 := abs_le.mpr ⟨h1, h2⟩
    have hfl : (⌊|v|⌋).toNat ≤ 180 := by
      have h3 : ⌊|v|⌋ ≤ ⌊(180 : ℚ)⌋ := Int.floor_le_floor habs
      have h4 : ⌊(180 : ℚ)⌋ = 180 := by norm_num
      omega
    obtain ⟨hm0, hm60⟩ := minutes_range v
    obtain ⟨ip, fp, heq, hip2, hfp4, hipd, hfpd⟩ := pyFmt74_shape _ hm0 hm60
    constructor
    · rw [toNmeaLatlon_eq]
      rcases lt_or_le v 0 with hv | hv
      · rw [if_pos hv, if_neg (not_le.mpr hv)]
        rfl
      · rw [if_neg (not_lt.mpr hv), if_pos hv]
        rfl
    · refine ⟨pyFmt74 ((|v| - (((⌊|v|⌋).toNat : ℕ) : ℚ)) * 60), ?_,
        pyFmt3_length _ (by omega), pyFmt3_digits _, rfl, ?_, ip, fp, heq, hip2, hfp4,
        fun c hc => by obtain ⟨d, hd, rfl⟩ := hipd c hc; exact digitChar_isDigit d hd,
        fun c hc => by obtain ⟨d, hd, rfl⟩ := hfpd c hc; exact digitChar_isDigit d hd⟩
      · rw [toNmeaLatlon_eq]
        rfl
      · rw [heq, List.length_append, List.length_cons]
        omega

set_option maxRecDepth 8192 in
set_option maxHeartbeats 1000000 in
unseal Rat.mul Rat.add Rat.sub Rat.inv in
theorem to_nmea_latlon_format_witness :
    ((-90 : ℚ) ≤ 48972657 / 1000000 ∧ (48972657 / 1000000 : ℚ) ≤ 90) ∧
    (toNmeaLatlon (48972657 / 1000000 : ℚ) true).2 =
      (if 0 ≤ (48972657 / 1000000 : ℚ) then "N" else "S") :=
  ⟨⟨by norm_num, by norm_num⟩,
    (to_nmea_latlon_format.1 (48972657 / 1000000 : ℚ) (by norm_num) (by norm_num)).1⟩

end Nmea
